import Mathlib

/-!
Shallow embedding of the `isbn` Go package (file `isbn.go`).

The `ISBN` structure mirrors the Go struct: a form flag, a 3-slot
registrant code (`pre`, the Go field is the 13-form leading code),
9 body digits and a checksum digit.  Go byte arrays become `List Nat`
(the parser and converters only ever build lists of the right length,
which the invariant theorems establish).  Fallible operations return
`Except` / `Option`; the panic branch of the digit renderer becomes
`Option.none`.
-/

/-- Mirrors the Go struct `ISBN { is13; prefix; digits; checksum }`. -/
structure ISBN where
  is13 : Bool
  pre : List Nat
  digits : List Nat
  checksum : Nat
deriving DecidableEq

/-- Mirrors `allowedISBN13Prefixes = [][]byte{{9,7,8},{9,7,9}}`. -/
def allowedPres : List (List Nat) := [[9, 7, 8], [9, 7, 9]]

/-- Mirrors the constant `urnPrefix` = "urn:isbn:". -/
def urnPre : List Char := ['u', 'r', 'n', ':', 'i', 's', 'b', 'n', ':']

/-- Mirrors `runeToISBNDigit`: digits map to their value, x/X to 10,
everything else is dropped (Go returns -1, which `strings.Map` drops;
here we return `none`). -/
def runeToISBNDigit (r : Char) : Option Nat :=
  if 48 ≤ r.toNat ∧ r.toNat ≤ 57 then some (r.toNat - 48)
  else if r = 'x' ∨ r = 'X' then some 10
  else none

/-- Mirrors `isbnDigitToByte`: 0-9 render as characters, 10 renders as
X, anything else panics (modelled as `none`). -/
def isbnDigitToByte (r : Nat) : Option Char :=
  if r ≤ 9 then some (Char.ofNat (r + 48))
  else if r = 10 then some 'X'
  else none

/-- Mirrors `isAllowedPrefix`: membership in the allow-list. -/
def isAllowedPre (p : List Nat) : Bool :=
  allowedPres.any (fun q => p == q)

/-- `hasPre p s` = the character list `p` is an initial segment of `s`
(mirrors `strings.HasPrefix`). -/
def hasPre : List Char → List Char → Bool
  | [], _ => true
  | _ :: _, [] => false
  | p :: ps, c :: cs => p == c && hasPre ps cs

/-- The URN-stripping step at the top of `Parse`. -/
def stripURN (s : List Char) : List Char :=
  if hasPre urnPre s then s.drop urnPre.length else s

/-- The running weighted sum of the `check10` loop:
`sum += int(d) * (10 - i)` starting at index `k`. -/
def sum10 : Nat → List Nat → Nat
  | _, [] => 0
  | k, d :: ds => d * (10 - k) + sum10 (k + 1) ds

/-- Mirrors `check10`. -/
def check10 (digits : List Nat) : Nat :=
  let sum := sum10 0 digits
  let m := sum % 11
  if m = 0 then 0 else 11 - m

/-- The running weighted sum of the `check13` loop: weight 3 at even
indices, 1 at odd indices, starting at index `k`. -/
def sum13 : Nat → List Nat → Nat
  | _, [] => 0
  | k, d :: ds => d * (if k % 2 = 0 then 3 else 1) + sum13 (k + 1) ds

/-- Mirrors `check13` (prefix contributes `1*p0 + 3*p1 + 1*p2`). -/
def check13 (p digits : List Nat) : Nat :=
  let sum := 1 * p.getD 0 0 + 3 * p.getD 1 0 + 1 * p.getD 2 0 + sum13 0 digits
  let m := sum % 10
  if m = 0 then 0 else 10 - m

/-- Mirrors the method `isValid`. -/
def ISBN.isValid (n : ISBN) : Bool :=
  if n.is13 then check13 n.pre n.digits == n.checksum
  else check10 n.digits == n.checksum

/-- The error outcomes of `Parse`, in source order. -/
inductive ParseError where
  | formatErr
  | digitCountErr
  | preErr
  | invalidCharPosErr
  | checksumErr
deriving DecidableEq

/-- The X-placement scan of the `Parse` loop over `m[offset:]`:
an error is raised at index `i` holding value 10 unless the value is
an ISBN-10 checksum (`!is13 && i == 9`). -/
def hasBadX (is13 : Bool) : Nat → List Nat → Bool
  | _, [] => false
  | k, c :: cs => (c == 10 && (is13 || k != 9)) || hasBadX is13 (k + 1) cs

/-- The part of `Parse` after URN stripping and the length guard,
operating on the surviving digit values `m`.  Field assignments of the
Go loop become `take`/`getD` (the zero-initialised checksum is the
`getD` default). -/
def parseDigits (m : List Nat) : Except ParseError ISBN :=
  let is13 : Bool := m.length == 13
  if m.length ≠ 10 ∧ is13 = false then Except.error ParseError.digitCountErr
  else
    let pre : List Nat := if is13 then m.take 3 else [0, 0, 0]
    if is13 = true ∧ isAllowedPre pre = false then Except.error ParseError.preErr
    else
      let offset : Nat := if is13 then 3 else 0
      let rest := m.drop offset
      if hasBadX is13 0 rest = true then Except.error ParseError.invalidCharPosErr
      else
        let parsed : ISBN := ⟨is13, pre, rest.take 9, rest.getD 9 0⟩
        if parsed.isValid = false then Except.error ParseError.checksumErr
        else Except.ok parsed

/-- Mirrors `Parse`: strip the URN form, enforce the 13+4 length guard,
map characters to digit values, then parse the digit values. -/
def Parse (s : List Char) : Except ParseError ISBN :=
  let t := stripURN s
  if 13 + 4 < t.length then Except.error ParseError.formatErr
  else parseDigits (t.filterMap runeToISBNDigit)

/-- Mirrors `To10`: identity on 10-forms, otherwise keep the registrant
code and digits and recompute the ISBN-10 checksum. -/
def ISBN.To10 (n : ISBN) : ISBN :=
  if n.is13 then ⟨false, n.pre, n.digits, check10 n.digits⟩ else n

/-- Mirrors `To13`: identity on 13-forms, otherwise reuse an allow-listed
stored code (falling back to 978) and recompute the ISBN-13 checksum. -/
def ISBN.To13 (n : ISBN) : ISBN :=
  if n.is13 then n
  else
    let p := if isAllowedPre n.pre then n.pre else [9, 7, 8]
    ⟨true, p, n.digits, check13 p n.digits⟩

/-- Renders a list of digit values, failing (as the Go code would
panic) on any value outside 0-10. -/
def renderDigits : List Nat → Option (List Char)
  | [] => some []
  | d :: ds =>
    match isbnDigitToByte d, renderDigits ds with
    | some c, some cs => some (c :: cs)
    | _, _ => none

/-- Mirrors the method `String`: 9 digits plus checksum, with the
3-character code and a hyphen in front for 13-forms. -/
def ISBN.toStr (n : ISBN) : Option (List Char) :=
  match renderDigits (n.digits ++ [n.checksum]) with
  | none => none
  | some base =>
    if n.is13 then
      match renderDigits n.pre with
      | none => none
      | some p => some (p ++ '-' :: base)
    else some base

/-- Mirrors `ToURN`. -/
def ISBN.toURN (n : ISBN) : Option (List Char) :=
  match n.toStr with
  | none => none
  | some b => some (urnPre ++ b)

/-- Mirrors `Canonical`. -/
def ISBN.Canonical (n : ISBN) : Option (List Char) :=
  n.To13.toURN

/-- The lifecycle of the spec: a value is produced by `Parse` or by a
conversion applied to an already produced value. -/
inductive Reach : ISBN → Prop
  | parse (s : List Char) (n : ISBN) : Parse s = Except.ok n → Reach n
  | to10 (n : ISBN) : Reach n → Reach n.To10
  | to13 (n : ISBN) : Reach n → Reach n.To13

/-- The construction invariant carried by every reachable value. -/
def goodV (n : ISBN) : Prop :=
  n.pre.length = 3 ∧ (∀ x ∈ n.pre, x ≤ 9) ∧
  n.digits.length = 9 ∧ (∀ x ∈ n.digits, x ≤ 9) ∧
  n.checksum ≤ 10 ∧ n.isValid = true ∧
  (n.checksum = 10 → n.is13 = false) ∧
  (n.is13 = true → isAllowedPre n.pre = true)

/-! ## Checksum algorithms (C2, C3) -/

theorem sum10_eq_sum (k : Nat) (l : List Nat) :
    sum10 k l = ∑ i in Finset.range l.length, l.getD i 0 * (10 - (k + i)) := by
  induction l generalizing k with
  | nil => simp [sum10]
  | cons x xs ih =>
    have h1 : sum10 k (x :: xs) = x * (10 - k) + sum10 (k + 1) xs := rfl
    rw [h1, ih (k + 1), List.length_cons, Finset.sum_range_succ']
    simp only [List.getD_cons_succ, List.getD_cons_zero, Nat.add_zero]
    have hcong : ∀ i ∈ Finset.range xs.length,
        xs.getD i 0 * (10 - (k + (i + 1))) = xs.getD i 0 * (10 - (k + 1 + i)) := by
      intro i _
      have h : k + (i + 1) = k + 1 + i := by omega
      rw [h]
    rw [Finset.sum_congr rfl hcong]
    exact Nat.add_comm _ _

theorem sum13_eq_sum (k : Nat) (l : List Nat) :
    sum13 k l = ∑ i in Finset.range l.length,
      l.getD i 0 * (if (k + i) % 2 = 0 then 3 else 1) := by
  induction l generalizing k with
  | nil => simp [sum13]
  | cons x xs ih =>
    have h1 : sum13 k (x :: xs)
        = x * (if k % 2 = 0 then 3 else 1) + sum13 (k + 1) xs := rfl
    rw [h1, ih (k + 1), List.length_cons, Finset.sum_range_succ']
    simp only [List.getD_cons_succ, List.getD_cons_zero, Nat.add_zero]
    have hcong : ∀ i ∈ Finset.range xs.length,
        xs.getD i 0 * (if (k + (i + 1)) % 2 = 0 then 3 else 1)
          = xs.getD i 0 * (if (k + 1 + i) % 2 = 0 then 3 else 1) := by
      intro i _
      have h : k + (i + 1) = k + 1 + i := by omega
      rw [h]
    rw [Finset.sum_congr rfl hcong]
    exact Nat.add_comm _ _

theorem check10_le_ten (d : List Nat) : check10 d ≤ 10 := by
  simp only [check10]
  have h : sum10 0 d % 11 < 11 := Nat.mod_lt _ (by norm_num)
  split <;> omega

theorem check13_le_nine (p d : List Nat) : check13 p d ≤ 9 := by
  simp only [check13]
  have h : (1 * p.getD 0 0 + 3 * p.getD 1 0 + 1 * p.getD 2 0 + sum13 0 d) % 10 < 10 :=
    Nat.mod_lt _ (by norm_num)
  split <;> omega

/-- C3: `check10` computes the spec's weighted-sum formula (weights
`10 - i` over the 9 body digits, remainder mod 11, result `0` or
`11 - remainder`) and its result always lies in `[0, 10]`. -/
theorem check10_spec_correct (d : List Nat) (hd : d.length = 9)
    (hdr : ∀ x ∈ d, x ≤ 9) :
    (check10 d =
      if (∑ i in Finset.range 9, d.getD i 0 * (10 - i)) % 11 = 0 then 0
      else 11 - (∑ i in Finset.range 9, d.getD i 0 * (10 - i)) % 11) ∧
    check10 d ≤ 10 := by
  have hs : sum10 0 d = ∑ i in Finset.range 9, d.getD i 0 * (10 - i) := by
    rw [sum10_eq_sum, hd]
    exact Finset.sum_congr rfl (fun i _ => by rw [Nat.zero_add])
  refine ⟨?_, check10_le_ten d⟩
  simp only [check10]
  rw [hs]

/-- C2: `check13` computes the spec's weighted-sum formula (prefix
weights 1,3,1 then body weights 3 at even and 1 at odd indices,
remainder mod 10, result `0` or `10 - remainder`) and its result always
lies in `[0, 9]`, never 10. -/
theorem check13_spec_correct (p d : List Nat) (hp : p.length = 3)
    (hpr : ∀ x ∈ p, x ≤ 9) (hd : d.length = 9) (hdr : ∀ x ∈ d, x ≤ 9) :
    (check13 p d =
      if (p.getD 0 0 * 1 + p.getD 1 0 * 3 + p.getD 2 0 * 1 +
          ∑ i in Finset.range 9, d.getD i 0 * (if i % 2 = 0 then 3 else 1)) % 10 = 0
      then 0
      else 10 - (p.getD 0 0 * 1 + p.getD 1 0 * 3 + p.getD 2 0 * 1 +
          ∑ i in Finset.range 9, d.getD i 0 * (if i % 2 = 0 then 3 else 1)) % 10) ∧
    check13 p d ≤ 9 ∧ check13 p d ≠ 10 := by
  have h9 := check13_le_nine p d
  have hs : 1 * p.getD 0 0 + 3 * p.getD 1 0 + 1 * p.getD 2 0 + sum13 0 d
      = p.getD 0 0 * 1 + p.getD 1 0 * 3 + p.getD 2 0 * 1 +
        ∑ i in Finset.range 9, d.getD i 0 * (if i % 2 = 0 then 3 else 1) := by
    rw [sum13_eq_sum, hd]
    have hc : ∀ i ∈ Finset.range 9,
        d.getD i 0 * (if (0 + i) % 2 = 0 then 3 else 1)
          = d.getD i 0 * (if i % 2 = 0 then 3 else 1) := by
      intro i _
      rw [Nat.zero_add]
    rw [Finset.sum_congr rfl hc]
    ring
  refine ⟨?_, h9, by omega⟩
  simp only [check13]
  rw [hs]

theorem check10_spec_correct_witness : check10 [0, 8, 3, 6, 2, 2, 0, 8, 8] ≤ 10 :=
  (check10_spec_correct [0, 8, 3, 6, 2, 2, 0, 8, 8] (by decide) (by decide)).2

theorem check13_spec_correct_witness :
    check13 [9, 7, 8] [0, 8, 3, 6, 2, 2, 0, 8, 8] ≤ 9 ∧
      check13 [9, 7, 8] [0, 8, 3, 6, 2, 2, 0, 8, 8] ≠ 10 :=
  (check13_spec_correct [9, 7, 8] [0, 8, 3, 6, 2, 2, 0, 8, 8]
    (by decide) (by decide) (by decide) (by decide)).2

/-! ## Conversion round trip (C1) and canonical stability (C6) -/

theorem isValid_13 {n : ISBN} (h13 : n.is13 = true) (hv : n.isValid = true) :
    check13 n.pre n.digits = n.checksum := by
  unfold ISBN.isValid at hv
  rw [h13] at hv
  simpa using hv

theorem isValid_10 {n : ISBN} (h13 : n.is13 = false) (hv : n.isValid = true) :
    check10 n.digits = n.checksum := by
  unfold ISBN.isValid at hv
  rw [h13] at hv
  simpa using hv

/-- C1 (amended): for a valid value whose stored code is allow-listed
or the zero sentinel, both round-trip compositions preserve the 9 body
digits, and the composition that ends in the value's own form also
restores its checksum: `To10 (To13 v)` has exactly `v`'s digits and
checksum when `v` is a 10-form, and `To13 (To10 v) = v` exactly when
`v` is a 13-form with an allow-listed code.  (The cross-form
composition carries the other algorithm's recomputed checksum, which
in general differs - see the counterexample.) -/
theorem round_trip_amended (v : ISBN) (hv : v.isValid = true)
    (hp : isAllowedPre v.pre = true ∨ v.pre = [0, 0, 0]) :
    v.To13.To10.digits = v.digits ∧
    v.To10.To13.digits = v.digits ∧
    (v.is13 = false →
      v.To13.To10.is13 = false ∧ v.To13.To10.checksum = v.checksum) ∧
    (v.is13 = true → isAllowedPre v.pre = true → v.To10.To13 = v) := by
  obtain ⟨b, pre, ds, c⟩ := v
  cases b with
  | false =>
    have hc : check10 ds = c := isValid_10 rfl hv
    by_cases ha : isAllowedPre pre = true
    · refine ⟨?_, ?_, fun _ => ⟨?_, ?_⟩, fun h _ => by cases h⟩ <;>
        simp [ISBN.To10, ISBN.To13, ha, hc]
    · refine ⟨?_, ?_, fun _ => ⟨?_, ?_⟩, fun h _ => by cases h⟩ <;>
        simp [ISBN.To10, ISBN.To13, ha, hc]
  | true =>
    have hc : check13 pre ds = c := isValid_13 rfl hv
    refine ⟨rfl, ?_, fun h => absurd h (by simp), fun _ ha => ?_⟩
    · by_cases ha : isAllowedPre pre = true
      · simp [ISBN.To10, ISBN.To13, ha]
      · simp [ISBN.To10, ISBN.To13, ha]
    · simp only [ISBN.To10, ISBN.To13] at ha ⊢
      simp [ha, hc]

/-- C1 counterexample: a valid zero-sentinel ISBN-10 value for which
`To13 (To10 v)` (one of the two compositions the claim covers) does not
have the same checksum as `v`: the 13-form checksum is recomputed with
the other algorithm. -/
theorem round_trip_claim_counterexample :
    (ISBN.isValid ⟨false, [0, 0, 0], [0, 8, 3, 6, 2, 1, 8, 2, 5], 6⟩) = true ∧
    (⟨false, [0, 0, 0], [0, 8, 3, 6, 2, 1, 8, 2, 5], 6⟩ : ISBN).pre = [0, 0, 0] ∧
    ¬((ISBN.To13 (ISBN.To10 ⟨false, [0, 0, 0], [0, 8, 3, 6, 2, 1, 8, 2, 5], 6⟩)).checksum
        = (⟨false, [0, 0, 0], [0, 8, 3, 6, 2, 1, 8, 2, 5], 6⟩ : ISBN).checksum) := by
  decide

theorem round_trip_amended_witness :
    ISBN.To13 (ISBN.To10 ⟨true, [9, 7, 8], [0, 8, 3, 6, 2, 2, 0, 8, 8], 9⟩)
      = ⟨true, [9, 7, 8], [0, 8, 3, 6, 2, 2, 0, 8, 8], 9⟩ :=
  (round_trip_amended ⟨true, [9, 7, 8], [0, 8, 3, 6, 2, 2, 0, 8, 8], 9⟩
    (by decide) (Or.inl (by decide))).2.2.2 rfl (by decide)

/-- C6: for every valid value (a 13-form valid value carries an
allow-listed code, per the data-model invariant), `Canonical` agrees on
`v`, `To10 v` and `To13 v`. -/
theorem canonical_stability (v : ISBN) (hv : v.isValid = true)
    (hp : v.is13 = true → isAllowedPre v.pre = true) :
    v.Canonical = v.To10.Canonical ∧ v.Canonical = v.To13.Canonical := by
  obtain ⟨b, pre, ds, c⟩ := v
  cases b with
  | false => exact ⟨rfl, rfl⟩
  | true =>
    have ha : isAllowedPre pre = true := hp rfl
    have hc : check13 pre ds = c := isValid_13 rfl hv
    have key : ISBN.To13 (ISBN.To10 ⟨true, pre, ds, c⟩) = ⟨true, pre, ds, c⟩ := by
      simp [ISBN.To10, ISBN.To13, ha, hc]
    refine ⟨?_, rfl⟩
    show (ISBN.To13 ⟨true, pre, ds, c⟩).toURN
        = (ISBN.To13 (ISBN.To10 ⟨true, pre, ds, c⟩)).toURN
    rw [key]
    rfl

theorem canonical_stability_witness :
    (⟨true, [9, 7, 8], [0, 8, 3, 6, 2, 2, 0, 8, 8], 9⟩ : ISBN).Canonical
        = (⟨true, [9, 7, 8], [0, 8, 3, 6, 2, 2, 0, 8, 8], 9⟩ : ISBN).To10.Canonical ∧
    (⟨true, [9, 7, 8], [0, 8, 3, 6, 2, 2, 0, 8, 8], 9⟩ : ISBN).Canonical
        = (⟨true, [9, 7, 8], [0, 8, 3, 6, 2, 2, 0, 8, 8], 9⟩ : ISBN).To13.Canonical :=
  canonical_stability ⟨true, [9, 7, 8], [0, 8, 3, 6, 2, 2, 0, 8, 8], 9⟩
    (by decide) (fun _ => by decide)

/-! ## Parsing infrastructure -/

theorem runeToISBNDigit_le {c : Char} {v : Nat} (h : runeToISBNDigit c = some v) :
    v ≤ 10 := by
  unfold runeToISBNDigit at h
  split at h
  · next hc =>
    injection h with h
    omega
  · split at h
    · injection h with h
      omega
    · cases h

theorem mem_digits_le {s : List Char} {x : Nat}
    (hx : x ∈ s.filterMap runeToISBNDigit) : x ≤ 10 := by
  obtain ⟨c, _, hc⟩ := List.mem_filterMap.mp hx
  exact runeToISBNDigit_le hc

theorem getD_drop (l : List Nat) (n i : Nat) :
    (l.drop n).getD i 0 = l.getD (n + i) 0 := by
  induction l generalizing n with
  | nil => simp
  | cons x xs ih =>
    cases n with
    | zero => simp
    | succ n =>
      have h : n + 1 + i = (n + i) + 1 := by omega
      rw [List.drop_succ_cons, ih n, h, List.getD_cons_succ]

theorem mem_take_getD {l : List Nat} {n x : Nat} (hx : x ∈ l.take n) :
    ∃ i, i < n ∧ i < l.length ∧ l.getD i 0 = x := by
  induction l generalizing n with
  | nil => simp at hx
  | cons a l ih =>
    cases n with
    | zero => simp at hx
    | succ n =>
      rw [List.take_succ_cons] at hx
      rcases List.mem_cons.mp hx with rfl | hx
      · exact ⟨0, by omega, by simp, rfl⟩
      · obtain ⟨i, h1, h2, h3⟩ := ih hx
        exact ⟨i + 1, by omega, by simp; omega, h3⟩

theorem hasBadX_false_getD {b : Bool} {l : List Nat} :
    ∀ {k : Nat}, hasBadX b k l = false → ∀ i, i < l.length →
      l.getD i 0 = 10 → b = false ∧ k + i = 9 := by
  induction l with
  | nil => intro k _ i hi; simp at hi
  | cons x xs ih =>
    intro k h i hi hx
    rw [hasBadX] at h
    obtain ⟨h1, h2⟩ := Bool.or_eq_false_iff.mp h
    cases i with
    | zero =>
      rw [List.getD_cons_zero] at hx
      subst hx
      simp only [Nat.add_zero]
      rcases Bool.and_eq_false_iff.mp h1 with hc | hc
      · simp at hc
      · obtain ⟨hb, hk⟩ := Bool.or_eq_false_iff.mp hc
        refine ⟨hb, ?_⟩
        simpa using hk
    | succ i =>
      rw [List.getD_cons_succ] at hx
      rw [List.length_cons] at hi
      obtain ⟨hb, hk⟩ := ih h2 i (by omega) hx
      exact ⟨hb, by omega⟩

theorem hasBadX_true_of_getD {b : Bool} {l : List Nat} :
    ∀ {k i : Nat}, i < l.length → l.getD i 0 = 10 → (b = true ∨ k + i ≠ 9) →
      hasBadX b k l = true := by
  induction l with
  | nil => intro k i hi; simp at hi
  | cons x xs ih =>
    intro k i hi hx hcond
    rw [hasBadX, Bool.or_eq_true]
    cases i with
    | zero =>
      rw [List.getD_cons_zero] at hx
      subst hx
      left
      rw [Bool.and_eq_true]
      refine ⟨by simp, ?_⟩
      rw [Bool.or_eq_true]
      rcases hcond with hb | hk
      · exact Or.inl hb
      · right
        simpa using hk
    | succ i =>
      rw [List.getD_cons_succ] at hx
      rw [List.length_cons] at hi
      right
      refine ih (by omega) hx ?_
      rcases hcond with hb | hk
      · exact Or.inl hb
      · right
        omega

theorem isAllowedPre_cases {p : List Nat} (h : isAllowedPre p = true) :
    p = [9, 7, 8] ∨ p = [9, 7, 9] := by
  unfold isAllowedPre allowedPres at h
  simpa using h

theorem isAllowedPre_entries {p : List Nat} (h : isAllowedPre p = true) :
    p.length = 3 ∧ (∀ x ∈ p, x ≤ 9) ∧ (10 : Nat) ∉ p := by
  rcases isAllowedPre_cases h with rfl | rfl <;> refine ⟨rfl, ?_, by decide⟩ <;>
    · intro x hx
      simp at hx
      rcases hx with rfl | rfl | rfl <;> omega

theorem parseDigits_other {m : List Nat} (h10 : m.length ≠ 10)
    (h13 : m.length ≠ 13) :
    parseDigits m = Except.error ParseError.digitCountErr := by
  simp only [parseDigits]
  rw [if_pos ⟨h10, beq_eq_false_iff_ne.mpr h13⟩]

theorem parseDigits_len10 {m : List Nat} (h : m.length = 10) :
    parseDigits m =
      if hasBadX false 0 m = true then Except.error ParseError.invalidCharPosErr
      else if ISBN.isValid ⟨false, [0, 0, 0], m.take 9, m.getD 9 0⟩ = false then
        Except.error ParseError.checksumErr
      else Except.ok ⟨false, [0, 0, 0], m.take 9, m.getD 9 0⟩ := by
  simp [parseDigits, h, show ((10 : Nat) == 13) = false from rfl]

theorem parseDigits_len13 {m : List Nat} (h : m.length = 13) :
    parseDigits m =
      if isAllowedPre (m.take 3) = false then Except.error ParseError.preErr
      else if hasBadX true 0 (m.drop 3) = true then
        Except.error ParseError.invalidCharPosErr
      else if ISBN.isValid
          ⟨true, m.take 3, (m.drop 3).take 9, (m.drop 3).getD 9 0⟩ = false then
        Except.error ParseError.checksumErr
      else Except.ok ⟨true, m.take 3, (m.drop 3).take 9, (m.drop 3).getD 9 0⟩ := by
  simp [parseDigits, h, show ((13 : Nat) == 13) = true from rfl]

theorem Parse_eq_parseDigits {s : List Char} (h : (stripURN s).length ≤ 17) :
    Parse s = parseDigits ((stripURN s).filterMap runeToISBNDigit) := by
  simp only [Parse]
  rw [if_neg (by omega)]

/-! ## Digit-count rejection (C8) -/

/-- C8: within the 17-character bound after URN stripping, `Parse`
fails with the digit-count error exactly when the surviving digit-value
count is neither 10 nor 13. -/
theorem digit_count_rejection (s : List Char) (hlen : (stripURN s).length ≤ 17) :
    Parse s = Except.error ParseError.digitCountErr ↔
      ¬(((stripURN s).filterMap runeToISBNDigit).length = 10 ∨
        ((stripURN s).filterMap runeToISBNDigit).length = 13) := by
  rw [Parse_eq_parseDigits hlen]
  constructor
  · intro h
    rintro (h10 | h13)
    · rw [parseDigits_len10 h10] at h
      split at h
      · simp at h
      · split at h <;> simp at h
    · rw [parseDigits_len13 h13] at h
      split at h
      · simp at h
      · split at h
        · simp at h
        · split at h <;> simp at h
  · intro h
    obtain ⟨h10, h13⟩ := not_or.mp h
    exact parseDigits_other h10 h13

theorem digit_count_rejection_witness :
    Parse ("08362208891".toList) = Except.error ParseError.digitCountErr ↔
      ¬(((stripURN ("08362208891".toList)).filterMap runeToISBNDigit).length = 10 ∨
        ((stripURN ("08362208891".toList)).filterMap runeToISBNDigit).length = 13) :=
  digit_count_rejection ("08362208891".toList) (by decide)

/-! ## X placement (C5) -/

/-- C5 (amended): within the 17-character stripped bound, a surviving
value 10 ('X') anywhere but the ISBN-10 checksum slot is rejected;
the error is `invalidCharPosErr` for a body or checksum position
(indices 0-8 of a 10-sequence, indices 3-12 of a 13-sequence whose
leading code is allow-listed), while an 'X' inside the three leading
slots of a 13-sequence makes the code fail the allow-list first and
is reported as `preErr`. -/
theorem x_placement_amended (s : List Char) (hlen : (stripURN s).length ≤ 17) :
    (((stripURN s).filterMap runeToISBNDigit).length = 10 →
      (∃ i, i < 9 ∧ ((stripURN s).filterMap runeToISBNDigit).getD i 0 = 10) →
      Parse s = Except.error ParseError.invalidCharPosErr) ∧
    (((stripURN s).filterMap runeToISBNDigit).length = 13 →
      isAllowedPre (((stripURN s).filterMap runeToISBNDigit).take 3) = true →
      (∃ i, 3 ≤ i ∧ i < 13 ∧
        ((stripURN s).filterMap runeToISBNDigit).getD i 0 = 10) →
      Parse s = Except.error ParseError.invalidCharPosErr) ∧
    (((stripURN s).filterMap runeToISBNDigit).length = 13 →
      (10 : Nat) ∈ ((stripURN s).filterMap runeToISBNDigit).take 3 →
      Parse s = Except.error ParseError.preErr) := by
  rw [Parse_eq_parseDigits hlen]
  refine ⟨fun h10 hex => ?_, fun h13 hall hex => ?_, fun h13 hmem => ?_⟩
  · obtain ⟨i, hi, hx⟩ := hex
    rw [parseDigits_len10 h10]
    rw [if_pos (hasBadX_true_of_getD (by omega) hx (Or.inr (by omega)))]
  · obtain ⟨i, h3, hi, hx⟩ := hex
    rw [parseDigits_len13 h13]
    rw [if_neg (by simp [hall])]
    have hlen' : i - 3 < (((stripURN s).filterMap runeToISBNDigit).drop 3).length := by
      rw [List.length_drop, h13]
      omega
    have hx' : (((stripURN s).filterMap runeToISBNDigit).drop 3).getD (i - 3) 0 = 10 := by
      rw [getD_drop]
      have h : 3 + (i - 3) = i := by omega
      rw [h, hx]
    rw [if_pos (hasBadX_true_of_getD hlen' hx' (Or.inl rfl))]
  · rw [parseDigits_len13 h13]
    have hfalse : isAllowedPre (((stripURN s).filterMap runeToISBNDigit).take 3) = false := by
      cases hb : isAllowedPre (((stripURN s).filterMap runeToISBNDigit).take 3) with
      | false => rfl
      | true => exact absurd hmem (isAllowedPre_entries hb).2.2
    rw [if_pos hfalse]

/-- C5 counterexample: "97X0836220889" has 13 surviving values with an
'X' at index 2 (not the checksum slot of a 10-sequence), yet `Parse`
reports the prefix error, not the invalid-character-position error. -/
theorem x_placement_counterexample :
    (("97X0836220889".toList.filterMap runeToISBNDigit).length = 13) ∧
    (("97X0836220889".toList.filterMap runeToISBNDigit).getD 2 0 = 10) ∧
    Parse ("97X0836220889".toList) = Except.error ParseError.preErr ∧
    Parse ("97X0836220889".toList) ≠ Except.error ParseError.invalidCharPosErr := by
  refine ⟨by decide, by decide, by rfl, ?_⟩
  intro h
  rw [(by rfl : Parse ("97X0836220889".toList) = Except.error ParseError.preErr)] at h
  simp at h

theorem x_placement_amended_witness :
    Parse ("08044X957X".toList) = Except.error ParseError.invalidCharPosErr :=
  (x_placement_amended ("08044X957X".toList) (by decide)).1
    (by decide) ⟨5, by decide, by decide⟩

/-! ## Construction invariant (C7) -/

theorem parseDigits_good {m : List Nat} (hmle : ∀ x ∈ m, x ≤ 10) {n : ISBN}
    (h : parseDigits m = Except.ok n) : goodV n := by
  by_cases h13 : m.length = 13
  · rw [parseDigits_len13 h13] at h
    split at h
    · simp at h
    next hall =>
    split at h
    · simp at h
    next hbad =>
    split at h
    · simp at h
    next hval =>
    obtain rfl : (⟨true, m.take 3, (m.drop 3).take 9, (m.drop 3).getD 9 0⟩ : ISBN) = n :=
      Except.ok.inj h
    have hall' : isAllowedPre (m.take 3) = true := by
      simpa using hall
    have hbad' : hasBadX true 0 (m.drop 3) = false := by
      simpa using hbad
    have hdroplen : (m.drop 3).length = 10 := by
      rw [List.length_drop, h13]
    obtain ⟨hp3, hp9, _⟩ := isAllowedPre_entries hall'
    refine ⟨hp3, hp9, ?_, ?_, ?_, ?_, ?_, fun _ => hall'⟩
    · rw [List.length_take, hdroplen]
      decide
    · intro x hx
      obtain ⟨i, hi9, hilen, hgd⟩ := mem_take_getD hx
      have hx10 : x ≤ 10 := by
        refine hmle x ?_
        exact List.drop_subset 3 m (List.take_subset 9 (m.drop 3) hx)
      rcases Nat.lt_or_ge x 10 with hlt | hge
      · omega
      · have hx' : x = 10 := by omega
        subst hx'
        obtain ⟨hfalse, _⟩ := hasBadX_false_getD hbad' i hilen hgd
        cases hfalse
    · have h9 : (9 : Nat) < (m.drop 3).length := by omega
      rw [List.getD_eq_getElem _ _ h9]
      exact hmle _ (List.drop_subset 3 m (List.getElem_mem h9))
    · simpa using hval
    · intro hck
      obtain ⟨hfalse, _⟩ := hasBadX_false_getD hbad' 9 (by omega) hck
      cases hfalse
  · by_cases h10 : m.length = 10
    · rw [parseDigits_len10 h10] at h
      split at h
      · simp at h
      next hbad =>
      split at h
      · simp at h
      next hval =>
      obtain rfl : (⟨false, [0, 0, 0], m.take 9, m.getD 9 0⟩ : ISBN) = n :=
        Except.ok.inj h
      have hbad' : hasBadX false 0 m = false := by
        simpa using hbad
      refine ⟨rfl, fun x hx => by simp at hx; omega, ?_, ?_, ?_, ?_,
        fun _ => rfl, fun h => nomatch h⟩
      · rw [List.length_take, h10]
        decide
      · intro x hx
        obtain ⟨i, hi9, hilen, hgd⟩ := mem_take_getD hx
        have hx10 : x ≤ 10 := hmle x (List.take_subset 9 m hx)
        rcases Nat.lt_or_ge x 10 with hlt | hge
        · omega
        · have hx' : x = 10 := by omega
          subst hx'
          obtain ⟨_, hk9⟩ := hasBadX_false_getD hbad' i hilen hgd
          omega
      · have h9 : (9 : Nat) < m.length := by omega
        rw [List.getD_eq_getElem _ _ h9]
        exact hmle _ (List.getElem_mem h9)
      · simpa using hval
    · rw [parseDigits_other h10 h13] at h
      simp at h

theorem parse_good {s : List Char} {n : ISBN} (h : Parse s = Except.ok n) :
    goodV n := by
  simp only [Parse] at h
  split at h
  · simp at h
  next hlen =>
  exact parseDigits_good (fun x hx => mem_digits_le hx) h

theorem To13_of_false {pre ds : List Nat} {c : Nat} :
    (⟨false, pre, ds, c⟩ : ISBN).To13 =
      ⟨true, if isAllowedPre pre then pre else [9, 7, 8], ds,
        check13 (if isAllowedPre pre then pre else [9, 7, 8]) ds⟩ := rfl

theorem to10_good {n : ISBN} (h : goodV n) : goodV n.To10 := by
  obtain ⟨b, pre, ds, c⟩ := n
  obtain ⟨hp3, hp9, hd9, hdr, hck, hv, hx, hall⟩ := h
  cases b with
  | false => exact ⟨hp3, hp9, hd9, hdr, hck, hv, hx, hall⟩
  | true =>
    refine ⟨hp3, hp9, hd9, hdr, check10_le_ten ds, ?_, fun _ => rfl,
      fun h => nomatch h⟩
    show ISBN.isValid ⟨false, pre, ds, check10 ds⟩ = true
    simp [ISBN.isValid]

theorem to13_good {n : ISBN} (h : goodV n) : goodV n.To13 := by
  obtain ⟨b, pre, ds, c⟩ := n
  obtain ⟨hp3, hp9, hd9, hdr, hck, hv, hx, hall⟩ := h
  cases b with
  | true => exact ⟨hp3, hp9, hd9, hdr, hck, hv, hx, hall⟩
  | false =>
    rw [To13_of_false]
    cases ha : isAllowedPre pre with
    | true =>
      rw [if_pos rfl]
      have h9 := check13_le_nine pre ds
      refine ⟨hp3, hp9, hd9, hdr, show check13 pre ds ≤ 10 by omega, ?_, ?_,
        fun _ => ha⟩
      · show ISBN.isValid ⟨true, pre, ds, check13 pre ds⟩ = true
        simp [ISBN.isValid]
      · intro hc
        have hc' : check13 pre ds = 10 := hc
        exact absurd hc' (by omega)
    | false =>
      rw [if_neg (by simp : ¬(false = true))]
      have h9 := check13_le_nine [9, 7, 8] ds
      refine ⟨rfl, fun x hx => ?_, hd9, hdr,
        show check13 [9, 7, 8] ds ≤ 10 by omega, ?_, ?_, fun _ => rfl⟩
      · have hx' : x ∈ ([9, 7, 8] : List Nat) := hx
        simp at hx'
        rcases hx' with rfl | rfl | rfl <;> omega
      · show ISBN.isValid ⟨true, [9, 7, 8], ds, check13 [9, 7, 8] ds⟩ = true
        simp [ISBN.isValid]
      · intro hc
        have hc' : check13 [9, 7, 8] ds = 10 := hc
        exact absurd hc' (by omega)

theorem reach_good {n : ISBN} (h : Reach n) : goodV n := by
  induction h with
  | parse s n hp => exact parse_good hp
  | to10 n hr ih => exact to10_good ih
  | to13 n hr ih => exact to13_good ih

/-- C7: every value produced by `Parse` or by the conversions (applied
along the lifecycle) has 9 body digits each in [0,9], a checksum in
[0,10] equal to the matching algorithm's value, and checksum 10 only in
the 10-form. -/
theorem construction_invariant (n : ISBN) (h : Reach n) :
    n.digits.length = 9 ∧ (∀ x ∈ n.digits, x ≤ 9) ∧ n.checksum ≤ 10 ∧
    (n.is13 = true → n.checksum = check13 n.pre n.digits) ∧
    (n.is13 = false → n.checksum = check10 n.digits) ∧
    (n.checksum = 10 → n.is13 = false) := by
  obtain ⟨_, _, hd9, hdr, hck, hv, hx, _⟩ := reach_good h
  refine ⟨hd9, hdr, hck, ?_, ?_, hx⟩
  · intro h13
    exact (isValid_13 h13 hv).symm
  · intro h13
    exact (isValid_10 h13 hv).symm

theorem construction_invariant_witness :
    (⟨false, [0, 0, 0], [0, 8, 3, 6, 2, 2, 0, 8, 8], 9⟩ : ISBN).digits.length = 9 ∧
    (∀ x ∈ (⟨false, [0, 0, 0], [0, 8, 3, 6, 2, 2, 0, 8, 8], 9⟩ : ISBN).digits, x ≤ 9) ∧
    (⟨false, [0, 0, 0], [0, 8, 3, 6, 2, 2, 0, 8, 8], 9⟩ : ISBN).checksum ≤ 10 ∧
    ((⟨false, [0, 0, 0], [0, 8, 3, 6, 2, 2, 0, 8, 8], 9⟩ : ISBN).is13 = true →
      (⟨false, [0, 0, 0], [0, 8, 3, 6, 2, 2, 0, 8, 8], 9⟩ : ISBN).checksum =
        check13 (⟨false, [0, 0, 0], [0, 8, 3, 6, 2, 2, 0, 8, 8], 9⟩ : ISBN).pre
          (⟨false, [0, 0, 0], [0, 8, 3, 6, 2, 2, 0, 8, 8], 9⟩ : ISBN).digits) ∧
    ((⟨false, [0, 0, 0], [0, 8, 3, 6, 2, 2, 0, 8, 8], 9⟩ : ISBN).is13 = false →
      (⟨false, [0, 0, 0], [0, 8, 3, 6, 2, 2, 0, 8, 8], 9⟩ : ISBN).checksum =
        check10 (⟨false, [0, 0, 0], [0, 8, 3, 6, 2, 2, 0, 8, 8], 9⟩ : ISBN).digits) ∧
    ((⟨false, [0, 0, 0], [0, 8, 3, 6, 2, 2, 0, 8, 8], 9⟩ : ISBN).checksum = 10 →
      (⟨false, [0, 0, 0], [0, 8, 3, 6, 2, 2, 0, 8, 8], 9⟩ : ISBN).is13 = false) :=
  construction_invariant ⟨false, [0, 0, 0], [0, 8, 3, 6, 2, 2, 0, 8, 8], 9⟩
    (Reach.parse ("0836220889".toList) _ (by rfl))

/-! ## Rendering totality (C9) -/

theorem renderDigits_isSome {l : List Nat} (h : ∀ x ∈ l, x ≤ 10) :
    ∃ cs, renderDigits l = some cs := by
  induction l with
  | nil => exact ⟨[], rfl⟩
  | cons x xs ih =>
    obtain ⟨cs, hcs⟩ := ih (fun y hy => h y (List.mem_cons_of_mem x hy))
    have hx : x ≤ 10 := h x (List.mem_cons_self x xs)
    have hb : ∃ ch, isbnDigitToByte x = some ch := by
      unfold isbnDigitToByte
      split
      · exact ⟨_, rfl⟩
      · next hgt => exact ⟨'X', by rw [if_pos (by omega)]⟩
    obtain ⟨ch, hch⟩ := hb
    refine ⟨ch :: cs, ?_⟩
    unfold renderDigits
    rw [hch, hcs]

theorem toStr_isSome {n : ISBN} (h : goodV n) : n.toStr.isSome = true := by
  obtain ⟨hp3, hp9, hd9, hdr, hck, _, _, _⟩ := h
  have hbase : ∃ cs, renderDigits (n.digits ++ [n.checksum]) = some cs := by
    refine renderDigits_isSome ?_
    intro x hx
    rcases List.mem_append.mp hx with hx | hx
    · exact le_trans (hdr x hx) (by omega)
    · simp at hx
      omega
  obtain ⟨cs, hcs⟩ := hbase
  obtain ⟨ps, hps⟩ :=
    renderDigits_isSome (fun x hx => le_trans (hp9 x hx) (by omega))
  unfold ISBN.toStr
  split
  next heq => rw [hcs] at heq; cases heq
  next base heq =>
    split
    · split
      next heq2 => rw [hps] at heq2; cases heq2
      next p heq2 => rfl
    · rfl

theorem toURN_isSome {n : ISBN} (h : goodV n) : n.toURN.isSome = true := by
  have hs := toStr_isSome h
  unfold ISBN.toURN
  split
  next heq => rw [heq] at hs; cases hs
  next b heq => rfl

/-- C9: on every value produced by `Parse` or the conversions, the
rendering operations are total: the digit renderer never reaches its
panic branch, so `toStr`, `toURN` and `Canonical` all return a value. -/
theorem rendering_total (n : ISBN) (h : Reach n) :
    n.toStr.isSome = true ∧ n.toURN.isSome = true ∧ n.Canonical.isSome = true := by
  have hg := reach_good h
  exact ⟨toStr_isSome hg, toURN_isSome hg, toURN_isSome (to13_good hg)⟩

theorem rendering_total_witness :
    (⟨true, [9, 7, 8], [0, 8, 3, 6, 2, 2, 0, 8, 8], 9⟩ : ISBN).toStr.isSome = true ∧
    (⟨true, [9, 7, 8], [0, 8, 3, 6, 2, 2, 0, 8, 8], 9⟩ : ISBN).toURN.isSome = true ∧
    (⟨true, [9, 7, 8], [0, 8, 3, 6, 2, 2, 0, 8, 8], 9⟩ : ISBN).Canonical.isSome = true :=
  rendering_total ⟨true, [9, 7, 8], [0, 8, 3, 6, 2, 2, 0, 8, 8], 9⟩
    (Reach.parse ("9780836220889".toList) _ (by rfl))

/-! ## Separator handling (C4, C10) -/

theorem filterMap_filter_isSome (l : List Char) :
    (l.filter (fun c => (runeToISBNDigit c).isSome)).filterMap runeToISBNDigit
      = l.filterMap runeToISBNDigit := by
  induction l with
  | nil => rfl
  | cons x xs ih =>
    cases hx : runeToISBNDigit x with
    | none => simp [List.filter_cons, List.filterMap_cons, hx, ih]
    | some v => simp [List.filter_cons, List.filterMap_cons, hx, ih]

theorem length_filterMap_of_filter (l : List Char) :
    (l.filterMap runeToISBNDigit).length
      = (l.filter (fun c => (runeToISBNDigit c).isSome)).length := by
  induction l with
  | nil => rfl
  | cons x xs ih =>
    cases hx : runeToISBNDigit x with
    | none => simp [List.filter_cons, List.filterMap_cons, hx, ih]
    | some v => simp [List.filter_cons, List.filterMap_cons, hx, ih]

theorem length_filterMap_of_all_isSome {l : List Char}
    (h : ∀ c ∈ l, (runeToISBNDigit c).isSome = true) :
    (l.filterMap runeToISBNDigit).length = l.length := by
  induction l with
  | nil => rfl
  | cons x xs ih =>
    have hx := h x (List.mem_cons_self x xs)
    cases hrx : runeToISBNDigit x with
    | none => rw [hrx] at hx; cases hx
    | some v =>
      have := ih (fun c hc => h c (List.mem_cons_of_mem x hc))
      simp [List.filterMap_cons, hrx, this]

theorem hasPre_append {p : List Char} :
    ∀ {l : List Char}, hasPre p l = true → l = p ++ l.drop p.length := by
  induction p with
  | nil => intro l _; simp
  | cons x ps ih =>
    intro l h
    cases l with
    | nil => simp [hasPre] at h
    | cons c cs =>
      simp only [hasPre, Bool.and_eq_true] at h
      obtain ⟨h1, h2⟩ := h
      have hx : x = c := by simpa using h1
      subst hx
      rw [List.length_cons, List.drop_succ_cons, List.cons_append]
      exact congrArg (List.cons x) (ih h2)

theorem stripURN_length_le (s : List Char) : (stripURN s).length ≤ s.length := by
  unfold stripURN
  split
  · rw [List.length_drop]
    omega
  · exact Nat.le_refl _

theorem filterMap_urnPre : urnPre.filterMap runeToISBNDigit = [] := by decide

theorem filterMap_stripURN (s : List Char) :
    (stripURN s).filterMap runeToISBNDigit = s.filterMap runeToISBNDigit := by
  unfold stripURN
  split
  next hp =>
    conv_rhs => rw [hasPre_append hp]
    rw [List.filterMap_append, filterMap_urnPre, List.nil_append]
  next => rfl

theorem not_hasPre_urn_filtered (t : List Char) :
    hasPre urnPre (t.filter (fun c => (runeToISBNDigit c).isSome)) = false := by
  cases hf : t.filter (fun c => (runeToISBNDigit c).isSome) with
  | nil => rfl
  | cons c cs =>
    have hc : (runeToISBNDigit c).isSome = true := by
      have hmem : c ∈ t.filter (fun c => (runeToISBNDigit c).isSome) := by
        rw [hf]
        exact List.mem_cons_self c cs
      exact (List.mem_filter.mp hmem).2
    have hcu : ('u' == c) = false := by
      refine beq_eq_false_iff_ne.mpr ?_
      intro h
      rw [← h] at hc
      exact absurd hc (by decide)
    simp [urnPre, hasPre, hcu]

theorem stripURN_filtered (t : List Char) :
    stripURN (t.filter (fun c => (runeToISBNDigit c).isSome))
      = t.filter (fun c => (runeToISBNDigit c).isSome) := by
  simp [stripURN, not_hasPre_urn_filtered]

/-- C4 (amended): after URN stripping, an input whose surviving digits
form a parseable ISBN and that carries at most 4 extra (non-digit)
characters parses identically; any input whose stripped length exceeds
17 is rejected with the format error - in particular 13 digits plus 5
or more extras always are; but a 10-digit input with 5 to 7 extras is
NOT rejected (see the counterexample). -/
theorem separator_tolerance_amended :
    (∀ (s : List Char) (n : ISBN),
      (stripURN s).length
          - ((stripURN s).filter (fun c => (runeToISBNDigit c).isSome)).length ≤ 4 →
      Parse ((stripURN s).filter (fun c => (runeToISBNDigit c).isSome))
          = Except.ok n →
      Parse s = Except.ok n) ∧
    (∀ s : List Char, 17 < (stripURN s).length →
      Parse s = Except.error ParseError.formatErr) ∧
    (∀ s : List Char,
      ((stripURN s).filterMap runeToISBNDigit).length = 13 →
      5 ≤ (stripURN s).length - ((stripURN s).filterMap runeToISBNDigit).length →
      Parse s = Except.error ParseError.formatErr) := by
  have hpart2 : ∀ s : List Char, 17 < (stripURN s).length →
      Parse s = Except.error ParseError.formatErr := by
    intro s h
    simp only [Parse]
    rw [if_pos (by omega)]
  refine ⟨?_, hpart2, ?_⟩
  · intro s n hex hok
    have hstrip := stripURN_filtered (stripURN s)
    have hfm := filterMap_filter_isSome (stripURN s)
    have hflen : (((stripURN s).filter
        (fun c => (runeToISBNDigit c).isSome)).filterMap runeToISBNDigit).length
        = ((stripURN s).filter (fun c => (runeToISBNDigit c).isSome)).length := by
      refine length_filterMap_of_all_isSome ?_
      intro c hc
      exact (List.mem_filter.mp hc).2
    simp only [Parse, hstrip] at hok
    split at hok
    · simp at hok
    next hfl =>
    have hcount : (((stripURN s).filter
        (fun c => (runeToISBNDigit c).isSome)).filterMap runeToISBNDigit).length = 10 ∨
        (((stripURN s).filter
        (fun c => (runeToISBNDigit c).isSome)).filterMap runeToISBNDigit).length = 13 := by
      by_contra hc
      obtain ⟨h10, h13⟩ := not_or.mp hc
      rw [parseDigits_other h10 h13] at hok
      simp at hok
    have hfilter_le := List.length_filter_le
      (fun c => (runeToISBNDigit c).isSome) (stripURN s)
    have htlen : (stripURN s).length ≤ 17 := by omega
    rw [Parse_eq_parseDigits htlen, ← hfm]
    exact hok
  · intro s h13 h5
    have heq := length_filterMap_of_filter (stripURN s)
    have hfilter_le := List.length_filter_le
      (fun c => (runeToISBNDigit c).isSome) (stripURN s)
    exact hpart2 s (by omega)

/-- C4 counterexample: 10 valid digits interleaved with 5 separator
characters (total length 15, inside the 17-character guard) still
parse successfully, refuting "5 or more extra characters are rejected"
as a universal statement. -/
theorem separator_tolerance_counterexample :
    ("08362-2-0-8-8-9".toList.length
        - ("08362-2-0-8-8-9".toList.filter
            (fun c => (runeToISBNDigit c).isSome)).length = 5) ∧
    Parse ("08362-2-0-8-8-9".toList) =
      Except.ok ⟨false, [0, 0, 0], [0, 8, 3, 6, 2, 2, 0, 8, 8], 9⟩ :=
  ⟨by decide, by rfl⟩

theorem separator_tolerance_amended_witness :
    Parse ("0-8044-2957-X".toList) =
      Except.ok ⟨false, [0, 0, 0], [0, 8, 0, 4, 4, 2, 9, 5, 7], 10⟩ ∧
    Parse ("9-7-8-0-8-36220889".toList) = Except.error ParseError.formatErr :=
  ⟨separator_tolerance_amended.1 ("0-8044-2957-X".toList)
      ⟨false, [0, 0, 0], [0, 8, 0, 4, 4, 2, 9, 5, 7], 10⟩ (by decide) (by rfl),
    separator_tolerance_amended.2.1 ("9-7-8-0-8-36220889".toList) (by decide)⟩

theorem filterMap_set_none {s : List Char} :
    ∀ {i : Nat} {c : Char}, runeToISBNDigit (s.getD i 'a') = none →
      runeToISBNDigit c = none →
      (s.set i c).filterMap runeToISBNDigit = s.filterMap runeToISBNDigit := by
  induction s with
  | nil => intro i c _ _; rfl
  | cons x xs ih =>
    intro i c h1 h2
    cases i with
    | zero =>
      rw [List.getD_cons_zero] at h1
      rw [List.set_cons_zero]
      rw [List.filterMap_cons, List.filterMap_cons, h1, h2]
    | succ i =>
      rw [List.getD_cons_succ] at h1
      rw [List.set_cons_succ]
      rw [List.filterMap_cons, List.filterMap_cons, ih h1 h2]

/-- C10: normalization is purely character-class based: a character is
dropped exactly when it is not a decimal digit (code points 48-57) nor
'x'/'X'; hence replacing any dropped character of an input within the
17-character raw bound by any other dropped character leaves the parse
result unchanged, and a valid ISBN interleaved with letters (not just
hyphens or spaces) still parses. -/
theorem normalization_drops_nondigits :
    (∀ c : Char, runeToISBNDigit c = none ↔
      ¬((48 ≤ c.toNat ∧ c.toNat ≤ 57) ∨ c = 'x' ∨ c = 'X')) ∧
    (∀ (s : List Char) (i : Nat) (c : Char), s.length ≤ 17 →
      runeToISBNDigit (s.getD i 'a') = none → runeToISBNDigit c = none →
      Parse (s.set i c) = Parse s) ∧
    Parse ("08a36b220c889".toList) =
      Except.ok ⟨false, [0, 0, 0], [0, 8, 3, 6, 2, 2, 0, 8, 8], 9⟩ := by
  refine ⟨?_, ?_, by rfl⟩
  · intro c
    unfold runeToISBNDigit
    split
    next h => simp [h]
    next h =>
      split
      next h2 =>
        rcases h2 with rfl | rfl <;> simp
      next h2 => simp [h, h2]
  · intro s i c hlen h1 h2
    have hset : (s.set i c).length = s.length := List.length_set s i c
    have g1 : (stripURN (s.set i c)).length ≤ 17 :=
      le_trans (stripURN_length_le _) (by omega)
    have g2 : (stripURN s).length ≤ 17 := le_trans (stripURN_length_le _) hlen
    rw [Parse_eq_parseDigits g1, Parse_eq_parseDigits g2,
      filterMap_stripURN, filterMap_stripURN, filterMap_set_none h1 h2]

theorem normalization_drops_nondigits_witness :
    (runeToISBNDigit 'q' = none ↔
      ¬((48 ≤ 'q'.toNat ∧ 'q'.toNat ≤ 57) ∨ 'q' = 'x' ∨ 'q' = 'X')) ∧
    Parse (("0836-220889".toList).set 4 '!') = Parse ("0836-220889".toList) :=
  ⟨normalization_drops_nondigits.1 'q',
    normalization_drops_nondigits.2.1 ("0836-220889".toList) 4 '!'
      (by decide) (by decide) (by decide)⟩

